import Mathlib

/-!
Verification of the unused-image reconciliation engine of
`acr_image_cleanup.py` (Azure Container Registry cleanup tool).

The Python source is shallowly embedded: each relevant function is
translated into an executable Lean definition over explicit data.
Timestamps are modelled as `Int` seconds; the external registry and
workload collaborators (Azure CLI subprocess calls, SDK queries) are
modelled as oracle functions passed in as parameters, so that the pure
decision logic of the script is captured exactly.
-/

set_option autoImplicit false

namespace AcrCleanup

/-- A manifest record as built by `get_all_acr_manifests`
(`acr_image_cleanup.py`, lines 249-255): digest (lowercased), tags
(`["<untagged>"]` when the registry reported none), optional parsed
creation time, size in bytes and owning repository. -/
structure Manifest where
  digest : String
  tags : List String
  created_time : Option Int
  size_bytes : Nat
  repository : String
  deriving DecidableEq, Repr

/-- Association-list lookup, the embedding of Python `dict` indexing /
`in` tests (first matching key wins; Python dicts have unique keys). -/
def dictLookup {α : Type} (m : List (String × α)) (k : String) : Option α :=
  match m with
  | [] => none
  | (k0, v) :: rest => if k0 = k then some v else dictLookup rest k

/-- Python `dict.get(k, default)`, as used for
`digest_to_apps.get(digest, [])` at line 615. -/
def dictGetD {α : Type} (m : List (String × α)) (k : String) (d : α) : α :=
  (dictLookup m k).getD d

/-- Python `defaultdict(list)` access-and-extend: `m[k].extend(v)` creates
the key with `[]` first when absent, then extends (lines 529, 559). -/
def extendEntry {α : Type} (m : List (String × List α)) (k : String) (v : List α) :
    List (String × List α) :=
  match m with
  | [] => [(k, v)]
  | (k0, v0) :: rest =>
    if k0 = k then (k0, v0 ++ v) :: rest else (k0, v0) :: extendEntry rest k v

/-- Plain `dict` assignment `m[k] = v`: overwrite when present, append
when absent (used for `deletion_results[digest] = {...}`). -/
def dictSet {α : Type} (m : List (String × α)) (k : String) (v : α) :
    List (String × α) :=
  match m with
  | [] => [(k, v)]
  | (k0, v0) :: rest =>
    if k0 = k then (k0, v) :: rest else (k0, v0) :: dictSet rest k v

/-- Python `set.add`: insert when not already present (model of
`manifest_digests.add` / `images_in_use.add`). -/
def setAdd (s : List String) (d : String) : List String :=
  if s.contains d then s else s ++ [d]

/-- Python `s.lower()` (character-wise lowercasing, over the string's
character data so that it is kernel-computable). -/
def strLower (s : String) : String :=
  ⟨s.data.map Char.toLower⟩

/-- Python slicing `s[n:]` (drop the first `n` characters). -/
def strDrop (s : String) (n : Nat) : String :=
  ⟨s.data.drop n⟩

/-- Python `len(s)` in characters. -/
def strLen (s : String) : Nat :=
  s.data.length

/-- Python `s.startswith(pat)`. -/
def strStartsWith (s pat : String) : Bool :=
  pat.data.isPrefixOf s.data

/-- Python `s.strip()`: remove leading and trailing whitespace. -/
def pyStrip (s : String) : String :=
  ⟨((s.data.dropWhile Char.isWhitespace).reverse.dropWhile
      Char.isWhitespace).reverse⟩

/-- The per-manifest normalisation performed by the catalog builder
`get_all_acr_manifests` (lines 233-257): the registry-reported digest is
lowercased, an empty tag list becomes `["<untagged>"]`; the ISO-8601
creation-time parse is abstracted as an `Option Int` input (the code
keeps `None` when the string is absent or unparseable). -/
def processManifest (digest : String) (tags : List String)
    (created_time : Option Int) (size_bytes : Nat) (repository : String) : Manifest :=
  { digest := strLower digest
    tags := if tags.isEmpty then ["<untagged>"] else tags
    created_time := created_time
    size_bytes := size_bytes
    repository := repository }

/-- Seconds in a day: `timedelta(days=threshold_days)` in seconds. -/
def secondsPerDay : Int := 86400

/-- The age predicate of the loop body of `filter_manifests_by_age`
(lines 303-311): a manifest with no creation time is skipped, otherwise
it is kept iff `created_time < cutoff_date`. -/
def isOldManifest (cutoff : Int) (m : Manifest) : Bool :=
  match m.created_time with
  | none => false
  | some t => t < cutoff

/-- Embedding of `filter_manifests_by_age` (lines 278-322):
`cutoff = now - timedelta(days=threshold_days)`; each repository keeps
its manifests that satisfy `isOldManifest`; a repository whose filtered
list is empty is not added to the output mapping (line 313). -/
def filter_manifests_by_age (repositories : List (String × List Manifest))
    (threshold_days : Int) (now : Int) : List (String × List Manifest) :=
  let cutoff := now - threshold_days * secondsPerDay
  match repositories with
  | [] => []
  | (repo, manifests) :: rest =>
    let old_manifests := manifests.filter (isOldManifest cutoff)
    if old_manifests.isEmpty then
      filter_manifests_by_age rest threshold_days now
    else
      (repo, old_manifests) :: filter_manifests_by_age rest threshold_days now

/-- The inner loop of `identify_unused_manifests` (lines 605-619) over one
repository's manifest list: a manifest whose digest is not in
`manifests_in_use` is appended to the unused list, otherwise a copy
annotated with `digest_to_apps.get(digest, [])` is appended to the
old-but-in-use list; iteration order is preserved. -/
def classifyRepo (manifests_in_use : List String)
    (digest_to_apps : List (String × List String)) :
    List Manifest → List Manifest × List (Manifest × List String)
  | [] => ([], [])
  | m :: rest =>
    let r := classifyRepo manifests_in_use digest_to_apps rest
    if manifests_in_use.contains m.digest then
      (r.1, (m, dictGetD digest_to_apps m.digest []) :: r.2)
    else
      (m :: r.1, r.2)

/-- Embedding of `identify_unused_manifests` (lines 580-628): iterate the
old-manifest catalog repository by repository, classifying every manifest
by digest membership in `manifests_in_use`. -/
def identify_unused_manifests (old_repositories : List (String × List Manifest))
    (manifests_in_use : List String)
    (digest_to_apps : List (String × List String)) :
    List Manifest × List (Manifest × List String) :=
  match old_repositories with
  | [] => ([], [])
  | (_, manifests) :: rest =>
    let here := classifyRepo manifests_in_use digest_to_apps manifests
    let there := identify_unused_manifests rest manifests_in_use digest_to_apps
    (here.1 ++ there.1, here.2 ++ there.2)

/-- All manifests of a catalog, in iteration order. -/
def catalogManifests (repositories : List (String × List Manifest)) : List Manifest :=
  match repositories with
  | [] => []
  | (_, manifests) :: rest => manifests ++ catalogManifests rest

theorem classifyRepo_unused_not_in_use (inUse : List String)
    (dta : List (String × List String)) (ms : List Manifest) :
    ∀ m ∈ (classifyRepo inUse dta ms).1, inUse.contains m.digest = false := by
  induction ms with
  | nil => intro m hm; simp [classifyRepo] at hm
  | cons a rest ih =>
    intro m hm
    cases h : inUse.contains a.digest with
    | true =>
      simp only [classifyRepo, h, if_pos] at hm
      exact ih m hm
    | false =>
      simp only [classifyRepo, h, Bool.false_eq_true, if_neg, not_false_iff,
        List.mem_cons] at hm
      rcases hm with rfl | hm
      · exact h
      · exact ih m hm

theorem classifyRepo_used_in_use (inUse : List String)
    (dta : List (String × List String)) (ms : List Manifest) :
    ∀ p ∈ (classifyRepo inUse dta ms).2, inUse.contains p.1.digest = true := by
  induction ms with
  | nil => intro p hp; simp [classifyRepo] at hp
  | cons a rest ih =>
    intro p hp
    cases h : inUse.contains a.digest with
    | true =>
      simp only [classifyRepo, h, if_pos, List.mem_cons] at hp
      rcases hp with rfl | hp
      · exact h
      · exact ih p hp
    | false =>
      simp only [classifyRepo, h, Bool.false_eq_true, if_neg, not_false_iff] at hp
      exact ih p hp

theorem classifyRepo_perm (inUse : List String)
    (dta : List (String × List String)) (ms : List Manifest) :
    ((classifyRepo inUse dta ms).1 ++
      ((classifyRepo inUse dta ms).2.map Prod.fst)).Perm ms := by
  induction ms with
  | nil => simp [classifyRepo]
  | cons a rest ih =>
    cases h : inUse.contains a.digest with
    | true =>
      simp only [classifyRepo, h, if_pos, List.map_cons]
      exact List.perm_middle.trans (ih.cons a)
    | false =>
      simp only [classifyRepo, h, Bool.false_eq_true, if_neg, not_false_iff,
        List.cons_append]
      exact ih.cons a

theorem identify_unused_not_in_use (old : List (String × List Manifest))
    (inUse : List String) (dta : List (String × List String)) :
    ∀ m ∈ (identify_unused_manifests old inUse dta).1,
      inUse.contains m.digest = false := by
  induction old with
  | nil => intro m hm; simp [identify_unused_manifests] at hm
  | cons p rest ih =>
    intro m hm
    obtain ⟨_, manifests⟩ := p
    simp only [identify_unused_manifests, List.mem_append] at hm
    rcases hm with hm | hm
    · exact classifyRepo_unused_not_in_use inUse dta manifests m hm
    · exact ih m hm

theorem identify_used_in_use (old : List (String × List Manifest))
    (inUse : List String) (dta : List (String × List String)) :
    ∀ p ∈ (identify_unused_manifests old inUse dta).2,
      inUse.contains p.1.digest = true := by
  induction old with
  | nil => intro p hp; simp [identify_unused_manifests] at hp
  | cons q rest ih =>
    intro p hp
    obtain ⟨_, manifests⟩ := q
    simp only [identify_unused_manifests, List.mem_append] at hp
    rcases hp with hp | hp
    · exact classifyRepo_used_in_use inUse dta manifests p hp
    · exact ih p hp

theorem identify_perm (old : List (String × List Manifest))
    (inUse : List String) (dta : List (String × List String)) :
    ((identify_unused_manifests old inUse dta).1 ++
      ((identify_unused_manifests old inUse dta).2.map Prod.fst)).Perm
      (catalogManifests old) := by
  induction old with
  | nil => simp [identify_unused_manifests, catalogManifests]
  | cons p rest ih =>
    obtain ⟨r, manifests⟩ := p
    simp only [identify_unused_manifests, catalogManifests, List.map_append]
    have hshuffle :
        (((classifyRepo inUse dta manifests).1 ++
            (identify_unused_manifests rest inUse dta).1) ++
          (((classifyRepo inUse dta manifests).2.map Prod.fst) ++
            ((identify_unused_manifests rest inUse dta).2.map Prod.fst))).Perm
        (((classifyRepo inUse dta manifests).1 ++
            ((classifyRepo inUse dta manifests).2.map Prod.fst)) ++
          ((identify_unused_manifests rest inUse dta).1 ++
            ((identify_unused_manifests rest inUse dta).2.map Prod.fst))) := by
      rw [List.append_assoc, List.append_assoc]
      exact List.Perm.append_left _ (List.perm_append_comm_assoc _ _ _)
    exact hshuffle.trans
      (List.Perm.append (classifyRepo_perm inUse dta manifests) ih)

/-- C1: classification is a complete disjoint partition: for every
old-manifest catalog, in-use digest set and provenance map, the two lists
returned by `identify_unused_manifests` never share a digest, and the
manifests of the two lists together are a permutation of the full
old-manifest set (every old manifest is placed in exactly one list). -/
theorem identify_unused_manifests_partition
    (old : List (String × List Manifest)) (inUse : List String)
    (dta : List (String × List String)) :
    (∀ m ∈ (identify_unused_manifests old inUse dta).1,
      ∀ p ∈ (identify_unused_manifests old inUse dta).2,
        m.digest ≠ p.1.digest) ∧
    ((identify_unused_manifests old inUse dta).1 ++
      ((identify_unused_manifests old inUse dta).2.map Prod.fst)).Perm
      (catalogManifests old) := by
  constructor
  · intro m hm p hp hdig
    have h1 := identify_unused_not_in_use old inUse dta m hm
    have h2 := identify_used_in_use old inUse dta p hp
    rw [hdig] at h1
    rw [h1] at h2
    exact Bool.false_ne_true h2
  · exact identify_perm old inUse dta

/-- A sample old manifest that is still referenced. -/
def mA : Manifest :=
  { digest := "sha256:aa", tags := ["v1"], created_time := some 0,
    size_bytes := 100, repository := "svc" }

/-- A sample old manifest that nothing references. -/
def mB : Manifest :=
  { digest := "sha256:bb", tags := ["v2"], created_time := some 10,
    size_bytes := 200, repository := "svc" }

/-- A sample old-manifest catalog with one repository and two manifests. -/
def sampleOldCatalog : List (String × List Manifest) := [("svc", [mA, mB])]

/-- Witness for C1 at a concrete catalog: `mB` lands in the unused list,
`mA` in the old-but-referenced list, and their digests differ. -/
theorem identify_unused_manifests_partition_witness :
    mB ∈ (identify_unused_manifests sampleOldCatalog ["sha256:aa"]
      [("sha256:aa", ["app1"])]).1 ∧
    (mA, ["app1"]) ∈ (identify_unused_manifests sampleOldCatalog ["sha256:aa"]
      [("sha256:aa", ["app1"])]).2 ∧
    mB.digest ≠ mA.digest := by
  refine ⟨by decide, by decide, ?_⟩
  exact (identify_unused_manifests_partition sampleOldCatalog ["sha256:aa"]
    [("sha256:aa", ["app1"])]).1 mB (by decide) (mA, ["app1"]) (by decide)

theorem filter_age_sound (cat : List (String × List Manifest)) (td now : Int) :
    ∀ p ∈ filter_manifests_by_age cat td now,
      p.2 ≠ [] ∧ ∃ ms, (p.1, ms) ∈ cat ∧
        p.2 = ms.filter (isOldManifest (now - td * secondsPerDay)) := by
  induction cat with
  | nil => intro p hp; simp [filter_manifests_by_age] at hp
  | cons q rest ih =>
    obtain ⟨r0, ms0⟩ := q
    intro p hp
    simp only [filter_manifests_by_age] at hp
    cases h : (ms0.filter (isOldManifest (now - td * secondsPerDay))).isEmpty with
    | true =>
      rw [h] at hp
      simp only [if_pos] at hp
      obtain ⟨hne, ms, hmem, heq⟩ := ih p hp
      exact ⟨hne, ms, List.mem_cons_of_mem _ hmem, heq⟩
    | false =>
      rw [h] at hp
      simp only [Bool.false_eq_true, if_neg, not_false_iff, List.mem_cons] at hp
      rcases hp with rfl | hp
      · refine ⟨?_, ms0, List.mem_cons_self _ _, rfl⟩
        intro hnil
        have hie : (ms0.filter (isOldManifest (now - td * secondsPerDay))).isEmpty
            = true := List.isEmpty_iff.mpr hnil
        cases hie.symm.trans h
      · obtain ⟨hne, ms, hmem, heq⟩ := ih p hp
        exact ⟨hne, ms, List.mem_cons_of_mem _ hmem, heq⟩

theorem filter_age_complete (cat : List (String × List Manifest)) (td now : Int) :
    ∀ r ms, (r, ms) ∈ cat →
      ms.filter (isOldManifest (now - td * secondsPerDay)) ≠ [] →
      (r, ms.filter (isOldManifest (now - td * secondsPerDay))) ∈
        filter_manifests_by_age cat td now := by
  induction cat with
  | nil => intro r ms hmem; simp at hmem
  | cons q rest ih =>
    obtain ⟨r0, ms0⟩ := q
    intro r ms hmem hne
    rcases List.mem_cons.mp hmem with heq | hmem
    · cases heq
      simp only [filter_manifests_by_age]
      have hie : (ms0.filter (isOldManifest (now - td * secondsPerDay))).isEmpty
          = false := by
        cases hcase : (ms0.filter (isOldManifest (now - td * secondsPerDay))).isEmpty with
        | true => exact absurd (List.isEmpty_iff.mp hcase) hne
        | false => rfl
      rw [hie]
      simp
    · have hmem2 := ih r ms hmem hne
      simp only [filter_manifests_by_age]
      cases hcase : (ms0.filter (isOldManifest (now - td * secondsPerDay))).isEmpty with
      | true => simpa using hmem2
      | false =>
        simp only [Bool.false_eq_true, if_neg, not_false_iff]
        exact List.mem_cons_of_mem _ hmem2

/-- C4: age-filter postcondition. Every entry of the output of
`filter_manifests_by_age` is a repository of the input whose manifest list
is exactly the input list filtered by the age predicate and is non-empty;
conversely every input repository with a non-empty filtered list appears
in the output; and the age predicate holds exactly for manifests with a
non-null creation time strictly earlier than `now` minus the threshold
(null creation times are always excluded). -/
theorem filter_manifests_by_age_spec (cat : List (String × List Manifest))
    (td now : Int) :
    (∀ p ∈ filter_manifests_by_age cat td now,
      p.2 ≠ [] ∧ ∃ ms, (p.1, ms) ∈ cat ∧
        p.2 = ms.filter (isOldManifest (now - td * secondsPerDay))) ∧
    (∀ r ms, (r, ms) ∈ cat →
      ms.filter (isOldManifest (now - td * secondsPerDay)) ≠ [] →
      (r, ms.filter (isOldManifest (now - td * secondsPerDay))) ∈
        filter_manifests_by_age cat td now) ∧
    (∀ m : Manifest, isOldManifest (now - td * secondsPerDay) m = true ↔
      ∃ t, m.created_time = some t ∧ t < now - td * secondsPerDay) := by
  refine ⟨filter_age_sound cat td now, filter_age_complete cat td now, ?_⟩
  intro m
  cases hct : m.created_time with
  | none => simp [isOldManifest, hct]
  | some t => simp [isOldManifest, hct]

/-- Witness for C4 at a concrete catalog: with threshold 30 days and
`now = 30*86400 + 1000`, the manifest created at time 0 survives, the one
created at `now` does not, and a repository with no survivors is dropped. -/
theorem filter_manifests_by_age_spec_witness :
    (("svc", [mA, mB]) ∈
      filter_manifests_by_age
        [("svc", [mA, mB]),
         ("other", [{ digest := "sha256:cc", tags := ["<untagged>"],
                      created_time := none, size_bytes := 5,
                      repository := "other" }])] 30 (30 * 86400 + 1000)) ∧
    isOldManifest ((30 * 86400 + 1000 : Int) - 30 * secondsPerDay) mA = true := by
  constructor
  · have h := (filter_manifests_by_age_spec
      [("svc", [mA, mB]),
       ("other", [{ digest := "sha256:cc", tags := ["<untagged>"],
                    created_time := none, size_bytes := 5,
                    repository := "other" }])] 30 (30 * 86400 + 1000)).2.1
      "svc" [mA, mB] (by decide) (by decide)
    simpa using h
  · exact ((filter_manifests_by_age_spec [] 30 (30 * 86400 + 1000)).2.2 mA).mpr
      ⟨0, rfl, by decide⟩

/-- Result of the registry collaborator call
`az acr repository show --image repository:tag` (lines 542-551): a parsed
JSON object whose `digest` field is `digest` (possibly `""` when the field
is missing), a CLI failure (`subprocess.CalledProcessError` with the given
stderr), or unparseable output (`json.JSONDecodeError`). -/
inductive TagResult where
  | ok (digest : String)
  | cliError (stderr : String)
  | parseError
  deriving DecidableEq, Repr

/-- Boolean substring search over character lists (Python `pat in s`). -/
def charsContain (pat : List Char) : List Char → Bool
  | [] => pat.isEmpty
  | c :: rest => pat.isPrefixOf (c :: rest) || charsContain pat rest

/-- Python substring test `pat in s`. -/
def strContainsSub (s pat : String) : Bool :=
  charsContain pat.data s.data

/-- Python single-character containment `c in s`. -/
def strContainsChar (s : String) (c : Char) : Bool :=
  s.data.contains c

/-- The hostname strip of `resolve_images_to_manifests` (lines 516-521):
when the reference starts (case-insensitively) with
`acr_login_server + "/"`, the first `len(acr_login_server) + 1`
characters are removed. -/
def stripServer (acr_login_server ref : String) : String :=
  if strStartsWith (strLower ref) (strLower acr_login_server ++ "/") then
    strDrop ref (strLen acr_login_server + 1)
  else ref

/-- Split a character list at the first occurrence of `c`:
`some (before, after)` when `c` occurs, `none` otherwise. -/
def firstSplit (c : Char) : List Char → Option (List Char × List Char)
  | [] => none
  | x :: rest =>
    if x = c then some ([], rest)
    else
      match firstSplit c rest with
      | some (l, r) => some (x :: l, r)
      | none => none

/-- Split a character list at the last occurrence of `c`. -/
def lastSplit (c : Char) : List Char → Option (List Char × List Char)
  | [] => none
  | x :: rest =>
    match lastSplit c rest with
    | some (l, r) => some (x :: l, r)
    | none => if x = c then some ([], rest) else none

/-- Python `s.split(c)[1]`: the text between the first and second
occurrence of `c` (up to the end when `c` occurs only once). Used for
`image_part.split('@')[1]`, which the code only reaches when `'@sha256:'`
occurs in `image_part`, so `c` is present. -/
def secondField (c : Char) (xs : List Char) : List Char :=
  match firstSplit c xs with
  | none => []
  | some (_, r) =>
    match firstSplit c r with
    | none => r
    | some (l, _) => l

/-- Python `s.rsplit(':', 1)` for a string known to contain `':'`: split
at the last colon. -/
def rsplitColon (s : String) : String × String :=
  match lastSplit ':' s.data with
  | some (l, r) => (⟨l⟩, ⟨r⟩)
  | none => (s, "")

/-- The branch taken by `resolve_images_to_manifests` on a stripped image
reference (lines 524-538): the direct digest path when the literal
substring `@sha256:` occurs (digest is `split('@')[1].lower()`);
otherwise the tag path, splitting at the last `':'`, with default tag
`latest` when there is no colon. -/
inductive RefPath where
  | digestForm (digest : String)
  | tagForm (repository : String) (tag : String)
  deriving DecidableEq, Repr

/-- The branching of lines 524-538 on the stripped image reference. -/
def refPath (image_part : String) : RefPath :=
  if strContainsSub image_part "@sha256:" then
    .digestForm (strLower ⟨secondField '@' image_part.data⟩)
  else if strContainsChar image_part ':' then
    .tagForm (rsplitColon image_part).1 (rsplitColon image_part).2
  else
    .tagForm image_part "latest"

/-- One iteration of the `resolve_images_to_manifests` loop body for a
single image reference (lines 512-567): the resulting digest (`none` when
nothing is added to the in-use set) and the warnings printed. -/
def resolveStep (resolveTag : String → String → TagResult)
    (acr_login_server ref : String) : Option String × List String :=
  match refPath (stripServer acr_login_server ref) with
  | .digestForm d => (some d, [])
  | .tagForm repository tag =>
    match resolveTag repository tag with
    | .ok digest =>
      if digest = "" then (none, ["Warning: Could not resolve to digest"])
      else (some (strLower digest), [])
    | .cliError e =>
      (none, ["Warning: Failed to resolve tag " ++ repository ++ ":" ++ tag
        ++ ": " ++ e])
    | .parseError =>
      (none, ["Warning: Failed to parse response for " ++ repository ++ ":"
        ++ tag])

/-- The state produced by `resolve_images_to_manifests`: the in-use digest
set, the digest-to-apps provenance map, and the warnings printed. -/
structure RunResolve where
  manifest_digests : List String
  digest_to_apps : List (String × List String)
  warnings : List String
  deriving DecidableEq, Repr

/-- The loop of `resolve_images_to_manifests` over the image references:
for a resolved digest, add it to the set and, when the reference is a key
of `image_to_apps`, extend the digest's provenance entry with that
reference's app list (`defaultdict` semantics, lines 527-529 and
557-559). -/
def resolveLoop (resolveTag : String → String → TagResult)
    (acr_login_server : String) (image_to_apps : List (String × List String)) :
    List String → RunResolve → RunResolve
  | [], acc => acc
  | ref :: rest, acc =>
    let step := resolveStep resolveTag acr_login_server ref
    let acc2 :=
      match step.1 with
      | some digest =>
        { manifest_digests := setAdd acc.manifest_digests digest
          digest_to_apps :=
            match dictLookup image_to_apps ref with
            | some apps => extendEntry acc.digest_to_apps digest apps
            | none => acc.digest_to_apps
          warnings := acc.warnings ++ step.2 }
      | none => { acc with warnings := acc.warnings ++ step.2 }
    resolveLoop resolveTag acr_login_server image_to_apps rest acc2

/-- Embedding of `resolve_images_to_manifests` (lines 490-573):
`acr_login_server = acr_name + ".azurecr.io"`, then the loop over the
in-use image references starting from empty accumulators. -/
def resolve_images_to_manifests (images_in_use : List String)
    (image_to_apps : List (String × List String)) (acr_name : String)
    (resolveTag : String → String → TagResult) : RunResolve :=
  resolveLoop resolveTag (acr_name ++ ".azurecr.io") image_to_apps
    images_in_use ⟨[], [], []⟩

/-- C10: digest-form detection is case-sensitive on the marker: the direct
digest path is taken only when the reference contains the literal
lowercase `@sha256:`; a reference without it that contains `':'` is split
at its last colon and sent to the tag-resolution path. -/
theorem refPath_digest_marker_case_sensitive :
    (∀ ip d, refPath ip = .digestForm d → strContainsSub ip "@sha256:" = true) ∧
    (∀ ip, strContainsSub ip "@sha256:" = false → strContainsChar ip ':' = true →
      refPath ip = .tagForm (rsplitColon ip).1 (rsplitColon ip).2) := by
  constructor
  · intro ip d h
    cases hc : strContainsSub ip "@sha256:" with
    | true => rfl
    | false =>
      cases hq : strContainsChar ip ':' with
      | true => simp [refPath, hc, hq] at h
      | false => simp [refPath, hc, hq] at h
  · intro ip h1 h2
    simp [refPath, h1, h2]

/-- Witness for C10: `repo@SHA256:ABCD` (uppercase marker) goes to the tag
path as repository `repo@SHA256` with tag `ABCD`. -/
theorem refPath_digest_marker_case_sensitive_witness :
    refPath "repo@SHA256:ABCD" = .tagForm "repo@SHA256" "ABCD" := by
  have h := refPath_digest_marker_case_sensitive.2 "repo@SHA256:ABCD"
    (by decide) (by decide)
  rw [h]
  decide

theorem resolveStep_none_warns (resolveTag : String → String → TagResult)
    (server ref : String)
    (h : (resolveStep resolveTag server ref).1 = none) :
    (resolveStep resolveTag server ref).2 ≠ [] := by
  unfold resolveStep at h ⊢
  cases hq : refPath (stripServer server ref) with
  | digestForm d => rw [hq] at h; simp at h
  | tagForm repository tag =>
    rw [hq] at h
    simp only [] at h
    cases ho : resolveTag repository tag with
    | ok digest =>
      rw [ho] at h
      by_cases hd : digest = ""
      · simp [ho, hd]
      · simp [hd] at h
    | cliError e => simp [ho]
    | parseError => simp [ho]

theorem classifyRepo_empty_in_use (dta : List (String × List String))
    (ms : List Manifest) : classifyRepo [] dta ms = (ms, []) := by
  induction ms with
  | nil => rfl
  | cons a rest ih => simp [classifyRepo, ih]

theorem identify_empty_in_use (old : List (String × List Manifest))
    (dta : List (String × List String)) :
    identify_unused_manifests old [] dta = (catalogManifests old, []) := by
  induction old with
  | nil => rfl
  | cons p rest ih =>
    obtain ⟨r, ms⟩ := p
    simp [identify_unused_manifests, catalogManifests, classifyRepo_empty_in_use,
      ih]

/-- C3: unresolvable references never provide false protection: when the
single reference's resolution step yields no digest (registry call error,
unparseable response, or empty digest field), the resolver adds nothing
to the in-use digest set or the provenance map, a warning is recorded,
and classification against the resulting (empty) in-use set marks every
old manifest unused-eligible. -/
theorem unresolvable_reference_no_protection (ref : String)
    (image_to_apps : List (String × List String)) (acr_name : String)
    (resolveTag : String → String → TagResult)
    (h : (resolveStep resolveTag (acr_name ++ ".azurecr.io") ref).1 = none) :
    (resolve_images_to_manifests [ref] image_to_apps acr_name
      resolveTag).manifest_digests = [] ∧
    (resolve_images_to_manifests [ref] image_to_apps acr_name
      resolveTag).digest_to_apps = [] ∧
    (resolve_images_to_manifests [ref] image_to_apps acr_name
      resolveTag).warnings ≠ [] ∧
    (∀ old dta,
      identify_unused_manifests old
        (resolve_images_to_manifests [ref] image_to_apps acr_name
          resolveTag).manifest_digests dta
        = (catalogManifests old, [])) := by
  have hrun : resolve_images_to_manifests [ref] image_to_apps acr_name
      resolveTag =
      ⟨[], [], (resolveStep resolveTag (acr_name ++ ".azurecr.io") ref).2⟩ := by
    simp [resolve_images_to_manifests, resolveLoop, h]
  refine ⟨by rw [hrun], by rw [hrun], ?_, ?_⟩
  · rw [hrun]
    exact resolveStep_none_warns resolveTag (acr_name ++ ".azurecr.io") ref h
  · intro old dta
    rw [hrun]
    exact identify_empty_in_use old dta

/-- Witness for C3 at a concrete failing oracle: the reference `svc:v1`
fails to resolve, nothing is protected, and a sample old catalog is
classified entirely unused-eligible. -/
theorem unresolvable_reference_no_protection_witness :
    (resolve_images_to_manifests ["svc:v1"] [("svc:v1", ["A"])] "myacr"
      (fun _ _ => .cliError "manifest unknown")).manifest_digests = [] ∧
    (resolve_images_to_manifests ["svc:v1"] [("svc:v1", ["A"])] "myacr"
      (fun _ _ => .cliError "manifest unknown")).warnings ≠ [] ∧
    identify_unused_manifests sampleOldCatalog
      (resolve_images_to_manifests ["svc:v1"] [("svc:v1", ["A"])] "myacr"
        (fun _ _ => .cliError "manifest unknown")).manifest_digests []
      = (catalogManifests sampleOldCatalog, []) := by
  have h := unresolvable_reference_no_protection "svc:v1" [("svc:v1", ["A"])]
    "myacr" (fun _ _ => .cliError "manifest unknown") (by decide)
  exact ⟨h.1, h.2.2.1, h.2.2.2 sampleOldCatalog []⟩

/-- C2: digest comparison is case-normalised on both sides: a manifest
whose registry-reported digest lowercases to a digest `d` that the
resolver put in the in-use set (the resolver lowercases every resolved
digest) is classified old-but-referenced, never unused-eligible. -/
theorem digest_comparison_case_normalized (rawDigest : String)
    (tags : List String) (created : Option Int) (size : Nat) (repo : String)
    (images : List String) (image_to_apps : List (String × List String))
    (acr_name : String) (resolveTag : String → String → TagResult)
    (d : String) (dta : List (String × List String))
    (hmem : d ∈ (resolve_images_to_manifests images image_to_apps acr_name
      resolveTag).manifest_digests)
    (hlow : strLower rawDigest = d) :
    identify_unused_manifests
      [(repo, [processManifest rawDigest tags created size repo])]
      (resolve_images_to_manifests images image_to_apps acr_name
        resolveTag).manifest_digests dta
    = ([], [(processManifest rawDigest tags created size repo,
        dictGetD dta d [])]) := by
  have hd : (processManifest rawDigest tags created size repo).digest = d := hlow
  have hc : (resolve_images_to_manifests images image_to_apps acr_name
      resolveTag).manifest_digests.contains
      (processManifest rawDigest tags created size repo).digest = true := by
    rw [hd]
    exact List.elem_eq_true_of_mem hmem
  simp [identify_unused_manifests, classifyRepo, hc, hd, hmem]

/-- Witness for C2: registry digest `SHA256:ABCD` (uppercase), usage
reference `myacr.azurecr.io/repo@sha256:abcd` resolving to the lowercase
digest; the manifest is classified old-but-referenced. -/
theorem digest_comparison_case_normalized_witness :
    identify_unused_manifests
      [("repo", [processManifest "SHA256:ABCD" ["v1"] (some 0) 5 "repo"])]
      (resolve_images_to_manifests ["myacr.azurecr.io/repo@sha256:abcd"] []
        "myacr" (fun _ _ => .parseError)).manifest_digests
      [("sha256:abcd", ["app1"])]
    = ([], [(processManifest "SHA256:ABCD" ["v1"] (some 0) 5 "repo",
        dictGetD [("sha256:abcd", ["app1"])] "sha256:abcd" [])]) := by
  exact digest_comparison_case_normalized "SHA256:ABCD" ["v1"] (some 0) 5
    "repo" ["myacr.azurecr.io/repo@sha256:abcd"] [] "myacr"
    (fun _ _ => .parseError) "sha256:abcd" [("sha256:abcd", ["app1"])]
    (by decide) (by decide)

/-- C6: provenance multiplicity is preserved: when two distinct in-use
references both resolve to the same digest `d`, the provenance entry for
`d` in the returned digest-to-apps map is the concatenation of both
references' provenance lists, without deduplication; likewise a single
reference declared by several workload instances carries its whole
provenance list over to the digest unchanged. -/
theorem provenance_lists_concatenated :
    (∀ (r1 r2 : String) (image_to_apps : List (String × List String))
        (acr_name : String) (resolveTag : String → String → TagResult)
        (d : String) (a1 a2 : List String),
      (resolveStep resolveTag (acr_name ++ ".azurecr.io") r1).1 = some d →
      (resolveStep resolveTag (acr_name ++ ".azurecr.io") r2).1 = some d →
      dictLookup image_to_apps r1 = some a1 →
      dictLookup image_to_apps r2 = some a2 →
      r1 ≠ r2 →
      dictLookup (resolve_images_to_manifests [r1, r2] image_to_apps acr_name
        resolveTag).digest_to_apps d = some (a1 ++ a2)) ∧
    (∀ (r : String) (image_to_apps : List (String × List String))
        (acr_name : String) (resolveTag : String → String → TagResult)
        (d : String) (ps : List String),
      (resolveStep resolveTag (acr_name ++ ".azurecr.io") r).1 = some d →
      dictLookup image_to_apps r = some ps →
      dictLookup (resolve_images_to_manifests [r] image_to_apps acr_name
        resolveTag).digest_to_apps d = some ps) := by
  constructor
  · intro r1 r2 image_to_apps acr_name resolveTag d a1 a2 h1 h2 hm1 hm2 hne
    have _hne := hne
    simp [resolve_images_to_manifests, resolveLoop, h1, h2, hm1, hm2,
      extendEntry, dictLookup, setAdd]
  · intro r image_to_apps acr_name resolveTag d ps h1 hm
    simp [resolve_images_to_manifests, resolveLoop, h1, hm, extendEntry,
      dictLookup]

/-- Witness for C6: `svc:v1` declared by A and `svc:v2` declared by B both
resolve to digest `sha256:dd`; the entry for `sha256:dd` lists A then B.
A single reference declared by both A and B yields the same entry. -/
theorem provenance_lists_concatenated_witness :
    (dictLookup (resolve_images_to_manifests ["svc:v1", "svc:v2"]
      [("svc:v1", ["A"]), ("svc:v2", ["B"])] "myacr"
      (fun _ _ => .ok "sha256:dd")).digest_to_apps "sha256:dd"
    = some (["A"] ++ ["B"])) ∧
    (dictLookup (resolve_images_to_manifests ["svc:v1"]
      [("svc:v1", ["A", "B"])] "myacr"
      (fun _ _ => .ok "sha256:dd")).digest_to_apps "sha256:dd"
    = some ["A", "B"]) := by
  constructor
  · exact provenance_lists_concatenated.1 "svc:v1" "svc:v2"
      [("svc:v1", ["A"]), ("svc:v2", ["B"])] "myacr"
      (fun _ _ => .ok "sha256:dd") "sha256:dd" ["A"] ["B"]
      (by decide) (by decide) (by decide) (by decide) (by decide)
  · exact provenance_lists_concatenated.2 "svc:v1" [("svc:v1", ["A", "B"])]
      "myacr" (fun _ _ => .ok "sha256:dd") "sha256:dd" ["A", "B"]
      (by decide) (by decide)

theorem extendEntry_mem {α : Type} (dta : List (String × List α)) (k : String)
    (v : List α) :
    ∀ p ∈ extendEntry dta k v,
      p ∈ dta ∨ (p.1 = k ∧ (p.2 = v ∨ ∃ v0, (k, v0) ∈ dta ∧ p.2 = v0 ++ v)) := by
  induction dta with
  | nil =>
    intro p hp
    simp [extendEntry] at hp
    subst hp
    exact Or.inr ⟨rfl, Or.inl rfl⟩
  | cons q rest ih =>
    obtain ⟨k0, v0⟩ := q
    intro p hp
    by_cases hk : k0 = k
    · subst hk
      simp only [extendEntry, if_pos, List.mem_cons] at hp
      rcases hp with rfl | hp
      · exact Or.inr ⟨rfl, Or.inr ⟨v0, List.mem_cons_self _ _, rfl⟩⟩
      · exact Or.inl (List.mem_cons_of_mem _ hp)
    · simp only [extendEntry, hk, if_neg, not_false_iff, List.mem_cons] at hp
      rcases hp with rfl | hp
      · exact Or.inl (List.mem_cons_self _ _)
      · rcases ih p hp with hin | ⟨hpk, hrest⟩
        · exact Or.inl (List.mem_cons_of_mem _ hin)
        · refine Or.inr ⟨hpk, ?_⟩
          rcases hrest with hv | ⟨w, hw, hpw⟩
          · exact Or.inl hv
          · exact Or.inr ⟨w, List.mem_cons_of_mem _ hw, hpw⟩

theorem extendEntry_nonempty {α : Type} (dta : List (String × List α))
    (k : String) (v : List α) (hv : v ≠ [])
    (hacc : ∀ q ∈ dta, q.2 ≠ []) :
    ∀ p ∈ extendEntry dta k v, p.2 ≠ [] := by
  intro p hp
  rcases extendEntry_mem dta k v p hp with hin | ⟨_, hv2⟩
  · exact hacc p hin
  · rcases hv2 with hv2 | ⟨v0, _, hv2⟩
    · rw [hv2]; exact hv
    · rw [hv2]
      intro hcontra
      exact hv (List.append_eq_nil.mp hcontra).2

theorem resolveLoop_dta_keys (resolveTag : String → String → TagResult)
    (server : String) (image_to_apps : List (String × List String)) :
    ∀ (images : List String) (acc : RunResolve),
      ∀ p ∈ (resolveLoop resolveTag server image_to_apps images
          acc).digest_to_apps,
        (∃ v0, (p.1, v0) ∈ acc.digest_to_apps) ∨
        ∃ ref ∈ images, (resolveStep resolveTag server ref).1 = some p.1 := by
  intro images
  induction images with
  | nil =>
    intro acc p hp
    exact Or.inl ⟨p.2, hp⟩
  | cons ref rest ih =>
    intro acc p hp
    simp only [resolveLoop] at hp
    cases hstep : (resolveStep resolveTag server ref).1 with
    | none =>
      rw [hstep] at hp
      rcases ih _ p hp with ⟨v0, hv0⟩ | ⟨r, hr, hres⟩
      · exact Or.inl ⟨v0, hv0⟩
      · exact Or.inr ⟨r, List.mem_cons_of_mem _ hr, hres⟩
    | some digest =>
      rw [hstep] at hp
      cases hlk : dictLookup image_to_apps ref with
      | none =>
        rw [hlk] at hp
        rcases ih _ p hp with ⟨v0, hv0⟩ | ⟨r, hr, hres⟩
        · exact Or.inl ⟨v0, hv0⟩
        · exact Or.inr ⟨r, List.mem_cons_of_mem _ hr, hres⟩
      | some apps =>
        rw [hlk] at hp
        rcases ih _ p hp with ⟨v0, hv0⟩ | ⟨r, hr, hres⟩
        · rcases extendEntry_mem acc.digest_to_apps digest apps (p.1, v0) hv0
            with hin | ⟨hk, _⟩
          · exact Or.inl ⟨v0, hin⟩
          · refine Or.inr ⟨ref, List.mem_cons_self _ _, ?_⟩
            have hk2 : p.1 = digest := hk
            rw [hstep, hk2]
        · exact Or.inr ⟨r, List.mem_cons_of_mem _ hr, hres⟩

theorem resolveLoop_dta_nonempty (resolveTag : String → String → TagResult)
    (server : String) (image_to_apps : List (String × List String))
    (Hm : ∀ r v, dictLookup image_to_apps r = some v → v ≠ []) :
    ∀ (images : List String) (acc : RunResolve),
      (∀ q ∈ acc.digest_to_apps, q.2 ≠ []) →
      ∀ p ∈ (resolveLoop resolveTag server image_to_apps images
          acc).digest_to_apps, p.2 ≠ [] := by
  intro images
  induction images with
  | nil => intro acc hacc p hp; exact hacc p hp
  | cons ref rest ih =>
    intro acc hacc p hp
    simp only [resolveLoop] at hp
    cases hstep : (resolveStep resolveTag server ref).1 with
    | none =>
      rw [hstep] at hp
      refine ih _ ?_ p hp
      intro q hq
      exact hacc q hq
    | some digest =>
      rw [hstep] at hp
      cases hlk : dictLookup image_to_apps ref with
      | none =>
        rw [hlk] at hp
        refine ih _ ?_ p hp
        intro q hq
        exact hacc q hq
      | some apps =>
        rw [hlk] at hp
        refine ih _ ?_ p hp
        exact extendEntry_nonempty acc.digest_to_apps digest apps
          (Hm ref apps hlk) hacc

/-- C7: UsageIndex well-formedness: when every in-use image reference maps
to a non-empty provenance list, every entry of the digest-to-apps mapping
returned by `resolve_images_to_manifests` is keyed by the (lowercased)
digest of at least one successfully resolved input reference and carries
a non-empty app list. -/
theorem usage_index_wellformed (images : List String)
    (image_to_apps : List (String × List String)) (acr_name : String)
    (resolveTag : String → String → TagResult)
    (Hm : ∀ r v, dictLookup image_to_apps r = some v → v ≠ []) :
    ∀ p ∈ (resolve_images_to_manifests images image_to_apps acr_name
        resolveTag).digest_to_apps,
      p.2 ≠ [] ∧ ∃ ref ∈ images,
        (resolveStep resolveTag (acr_name ++ ".azurecr.io") ref).1
          = some p.1 := by
  intro p hp
  constructor
  · exact resolveLoop_dta_nonempty resolveTag (acr_name ++ ".azurecr.io")
      image_to_apps Hm images ⟨[], [], []⟩ (by intro q hq; simp at hq) p hp
  · rcases resolveLoop_dta_keys resolveTag (acr_name ++ ".azurecr.io")
      image_to_apps images ⟨[], [], []⟩ p hp with ⟨v0, hv0⟩ | h
    · simp at hv0
    · exact h

/-- Witness for C7: a single reference with provenance `["A"]` resolving
to `sha256:dd`; the one map entry is non-empty and keyed by that digest. -/
theorem usage_index_wellformed_witness :
    (("sha256:dd", ["A"]) ∈ (resolve_images_to_manifests ["svc:v1"]
      [("svc:v1", ["A"])] "myacr"
      (fun _ _ => .ok "sha256:DD")).digest_to_apps) ∧
    (("sha256:dd", ["A"]) : String × List String).2 ≠ [] ∧
    (∃ ref ∈ ["svc:v1"],
      (resolveStep (fun _ _ => .ok "sha256:DD") ("myacr" ++ ".azurecr.io")
        ref).1 = some "sha256:dd") := by
  refine ⟨by decide, ?_⟩
  exact usage_index_wellformed ["svc:v1"] [("svc:v1", ["A"])] "myacr"
    (fun _ _ => .ok "sha256:DD")
    (by
      intro r v h
      simp only [dictLookup] at h
      split at h
      · injection h with hv
        subst hv
        decide
      · exact Option.noConfusion h)
    ("sha256:dd", ["A"]) (by decide)

/-- App Service site configuration, as read from the SDK
(`config.linux_fx_version` / `config.windows_fx_version`); `none` models
a missing attribute, `some ""` an empty (falsy) value — the two are
indistinguishable to the code (`hasattr(...) and config...` truthiness,
lines 450-460). -/
structure SiteConfig where
  linux_fx_version : Option String
  windows_fx_version : Option String
  deriving DecidableEq, Repr

/-- App Service application settings (`app_settings.properties`,
lines 463-469). -/
structure AppSettings where
  properties : List (String × String)
  deriving DecidableEq, Repr

/-- The `DOCKER|` de-structuring of a container launch descriptor
(lines 453-454 and 459-460): when the value starts with `DOCKER|`, the
image is the rest of the string; otherwise no image is extracted
(the Python leaves `image = None`, which behaves like `""`). -/
def dockerImageOf (v : String) : String :=
  if strStartsWith v "DOCKER|" then strDrop v 7 else ""

/-- The candidate image before the tenancy filter
(`extract_acr_image_from_config`, lines 444-476): Linux descriptor first,
Windows descriptor only when the Linux one is falsy, then the
`DOCKER_CUSTOM_IMAGE_NAME` app setting as a fallback when no image was
found. Python's `None` and `""` are both modelled as `""` (the code only
ever tests truthiness of the value). -/
def candidateImage (config : SiteConfig) (app_settings : Option AppSettings) :
    String :=
  let lfx := config.linux_fx_version.getD ""
  let wfx := config.windows_fx_version.getD ""
  let image0 :=
    if lfx ≠ "" then dockerImageOf lfx
    else if wfx ≠ "" then dockerImageOf wfx
    else ""
  if image0 = "" then
    match app_settings with
    | some s => (dictLookup s.properties "DOCKER_CUSTOM_IMAGE_NAME").getD ""
    | none => ""
  else image0

/-- The tenancy filter of `extract_acr_image_from_config` (lines 481-487):
a non-empty image is returned only when `acr_login_server.lower()` occurs
as a substring of `image.lower()`; otherwise the empty string. -/
def acceptImage (image acr_login_server : String) : String :=
  if image ≠ "" ∧ strContainsSub (strLower image) (strLower acr_login_server)
      = true then image
  else ""

/-- Embedding of `extract_acr_image_from_config` (lines 431-487):
candidate extraction followed by the tenancy filter. -/
def extract_acr_image_from_config (config : SiteConfig)
    (acr_login_server : String) (app_settings : Option AppSettings) : String :=
  acceptImage (candidateImage config app_settings) acr_login_server

/-- One App Service as scanned by `get_images_in_use_by_app_services`:
production-slot configuration and settings, plus the deployment slots
(slot name, configuration, settings). -/
structure AppService where
  name : String
  config : SiteConfig
  app_settings : Option AppSettings
  slots : List (String × SiteConfig × Option AppSettings)
  deriving DecidableEq, Repr

/-- The slot loop of `get_images_in_use_by_app_services` (lines 390-411):
each slot's extracted image, when non-empty, is added to the in-use set
and the slot's composite name `app/slot` is appended to the image's app
list. -/
def collectSlots (acr_login_server app_name : String)
    (slots : List (String × SiteConfig × Option AppSettings))
    (acc : List String × List (String × List String)) :
    List String × List (String × List String) :=
  match slots with
  | [] => acc
  | (slot_name, config, settings) :: rest =>
    let image := extract_acr_image_from_config config acr_login_server settings
    let acc2 :=
      if image ≠ "" then
        (setAdd acc.1 image,
          extendEntry acc.2 image [app_name ++ "/" ++ slot_name])
      else acc
    collectSlots acr_login_server app_name rest acc2

/-- The App Service loop of `get_images_in_use_by_app_services`
(lines 362-419): the production slot's image, then every deployment
slot. -/
def collectApps (acr_login_server : String) (apps : List AppService)
    (acc : List String × List (String × List String)) :
    List String × List (String × List String) :=
  match apps with
  | [] => acc
  | app :: rest =>
    let image := extract_acr_image_from_config app.config acr_login_server
      app.app_settings
    let acc1 :=
      if image ≠ "" then
        (setAdd acc.1 image, extendEntry acc.2 image [app.name])
      else acc
    let acc2 := collectSlots acr_login_server app.name app.slots acc1
    collectApps acr_login_server rest acc2

/-- Embedding of `get_images_in_use_by_app_services` (lines 329-428):
`acr_login_server = acr_name + ".azurecr.io"`, loop over all App
Services starting from an empty set and map. -/
def get_images_in_use_by_app_services (apps : List AppService)
    (acr_name : String) : List String × List (String × List String) :=
  collectApps (acr_name ++ ".azurecr.io") apps ([], [])

theorem acceptImage_sound (image server : String)
    (h : acceptImage image server ≠ "") :
    strContainsSub (strLower (acceptImage image server)) (strLower server)
      = true := by
  unfold acceptImage at h ⊢
  by_cases hc : image ≠ "" ∧ strContainsSub (strLower image) (strLower server)
      = true
  · rw [if_pos hc]
    exact hc.2
  · rw [if_neg hc] at h
    exact absurd rfl h

theorem setAdd_mem (s : List String) (d x : String) (h : x ∈ setAdd s d) :
    x ∈ s ∨ x = d := by
  unfold setAdd at h
  by_cases hc : s.contains d = true
  · rw [if_pos hc] at h
    exact Or.inl h
  · rw [if_neg hc] at h
    rcases List.mem_append.mp h with h | h
    · exact Or.inl h
    · simp at h
      exact Or.inr h

theorem collectSlots_images (server app_name : String)
    (slots : List (String × SiteConfig × Option AppSettings)) :
    ∀ acc, ∀ x ∈ (collectSlots server app_name slots acc).1,
      x ∈ acc.1 ∨ strContainsSub (strLower x) (strLower server) = true := by
  induction slots with
  | nil => intro acc x hx; exact Or.inl hx
  | cons q rest ih =>
    obtain ⟨slot_name, config, settings⟩ := q
    intro acc x hx
    simp only [collectSlots] at hx
    by_cases himg : extract_acr_image_from_config config server settings ≠ ""
    · rw [if_pos himg] at hx
      rcases ih _ x hx with hin | hc
      · rcases setAdd_mem acc.1 _ x hin with h | h
        · exact Or.inl h
        · right
          rw [h]
          exact acceptImage_sound (candidateImage config settings) server himg
      · exact Or.inr hc
    · rw [if_neg himg] at hx
      rcases ih _ x hx with hin | hc
      · exact Or.inl hin
      · exact Or.inr hc

theorem collectApps_images (server : String) (apps : List AppService) :
    ∀ acc, ∀ x ∈ (collectApps server apps acc).1,
      x ∈ acc.1 ∨ strContainsSub (strLower x) (strLower server) = true := by
  induction apps with
  | nil => intro acc x hx; exact Or.inl hx
  | cons app rest ih =>
    intro acc x hx
    simp only [collectApps] at hx
    rcases ih _ x hx with hslots | hc
    · rcases collectSlots_images server app.name app.slots _ x hslots
        with hprod | hc
      · by_cases himg : extract_acr_image_from_config app.config server
            app.app_settings ≠ ""
        · rw [if_pos himg] at hprod
          rcases setAdd_mem acc.1 _ x hprod with h | h
          · exact Or.inl h
          · right
            rw [h]
            exact acceptImage_sound (candidateImage app.config app.app_settings)
              server himg
        · rw [if_neg himg] at hprod
          exact Or.inl hprod
      · exact Or.inr hc
    · exact Or.inr hc

/-- C5: tenancy filter: `extract_acr_image_from_config` returns a
non-empty image only when that image case-insensitively contains the
target registry's login server, and consequently every reference in the
in-use image set collected from the App Services contains the login
server (references to other registries are discarded). -/
theorem tenancy_filter_only_target_registry :
    (∀ (config : SiteConfig) (acr_login_server : String)
        (app_settings : Option AppSettings),
      extract_acr_image_from_config config acr_login_server app_settings
        ≠ "" →
      strContainsSub
        (strLower (extract_acr_image_from_config config acr_login_server
          app_settings)) (strLower acr_login_server) = true) ∧
    (∀ (apps : List AppService) (acr_name : String),
      ∀ img ∈ (get_images_in_use_by_app_services apps acr_name).1,
        strContainsSub (strLower img) (strLower (acr_name ++ ".azurecr.io"))
          = true) := by
  constructor
  · intro config server settings h
    exact acceptImage_sound (candidateImage config settings) server h
  · intro apps acr img himg
    rcases collectApps_images (acr ++ ".azurecr.io") apps ([], []) img himg
      with h | h
    · simp at h
    · exact h

/-- Witness for C5: a production-slot Linux descriptor naming the target
registry is accepted and its image (collected into the in-use set)
contains the login server. -/
theorem tenancy_filter_only_target_registry_witness :
    strContainsSub (strLower (extract_acr_image_from_config
        ⟨some "DOCKER|myacr.azurecr.io/repo:v1", none⟩ "myacr.azurecr.io"
        none)) (strLower "myacr.azurecr.io") = true ∧
    strContainsSub (strLower "myacr.azurecr.io/repo:v1")
      (strLower ("myacr" ++ ".azurecr.io")) = true := by
  constructor
  · exact tenancy_filter_only_target_registry.1
      ⟨some "DOCKER|myacr.azurecr.io/repo:v1", none⟩ "myacr.azurecr.io" none
      (by decide)
  · exact tenancy_filter_only_target_registry.2
      [⟨"app1", ⟨some "DOCKER|myacr.azurecr.io/repo:v1", none⟩, none, []⟩]
      "myacr" "myacr.azurecr.io/repo:v1" (by decide)

/-- Outcome of one `az acr repository delete` subprocess call
(lines 874-883): success, `subprocess.CalledProcessError` with the given
stderr, or `subprocess.TimeoutExpired` after the 60-second timeout. -/
inductive DeleteOutcome where
  | ok
  | cliError (stderr : String)
  | timedOut
  deriving DecidableEq, Repr

/-- One entry of the `deletion_results` ledger of `hard_delete_manifests`
(lines 887-892, 905-911, 923-929). -/
structure DeletionRecord where
  status : String
  repository : String
  tags : String
  error : Option String
  timestamp : Int
  deriving DecidableEq, Repr

/-- Python `', '.join(tags)`. -/
def joinTags (tags : List String) : String :=
  match tags with
  | [] => ""
  | t :: rest => rest.foldl (fun s u => s ++ ", " ++ u) t

/-- The ledger record written for one manifest by the deletion loop
(lines 872-929): on success a `success` record, on a CLI error a `failed`
record with the stripped stderr (or a generic message when stderr is
empty), on a timeout a `failed` record with the fixed timeout message. -/
def deletionRecordOf (m : Manifest) (outcome : DeleteOutcome) (now : Int) :
    DeletionRecord :=
  match outcome with
  | .ok =>
    { status := "success", repository := m.repository, tags := joinTags m.tags,
      error := none, timestamp := now }
  | .cliError stderr =>
    { status := "failed", repository := m.repository, tags := joinTags m.tags,
      error := some (if stderr ≠ "" then pyStrip stderr
        else "subprocess.CalledProcessError"),
      timestamp := now }
  | .timedOut =>
    { status := "failed", repository := m.repository, tags := joinTags m.tags,
      error := some "Deletion command timed out after 60 seconds",
      timestamp := now }

/-- The deletion loop of `hard_delete_manifests` (lines 865-931): one
subprocess invocation per manifest regardless of earlier outcomes; the
ledger is a digest-keyed dict assignment, and the attempted
`(repository, digest)` pairs are recorded in order. -/
def deleteLoop (outcome : String → String → DeleteOutcome) (now : Int) :
    List Manifest → List (String × DeletionRecord) → List (String × String) →
      List (String × DeletionRecord) × List (String × String)
  | [], results, attempts => (results, attempts)
  | m :: rest, results, attempts =>
    let res := outcome m.repository m.digest
    deleteLoop outcome now rest
      (dictSet results m.digest (deletionRecordOf m res now))
      (attempts ++ [(m.repository, m.digest)])

/-- The observable result of `hard_delete_manifests`: the returned ledger
(`none` when the function returns `None`) and the sequence of
`az acr repository delete` invocations issued. -/
structure HardDeleteRun where
  deletion_results : Option (List (String × DeletionRecord))
  attempts : List (String × String)
  deriving DecidableEq, Repr

set_option linter.unusedVariables false in
/-- Embedding of `hard_delete_manifests` (lines 822-951): an empty input
list returns `None` without prompting; the confirmation `input()` is
stripped and compared against the exact string `DELETE` (line 848-852),
returning `None` with no deletion on mismatch; otherwise the deletion
loop runs over every manifest. -/
def hard_delete_manifests (unused_manifests : List Manifest)
    (acr_name : String) (response : String)
    (outcome : String → String → DeleteOutcome) (now : Int) : HardDeleteRun :=
  if unused_manifests.isEmpty then ⟨none, []⟩
  else if pyStrip response ≠ "DELETE" then ⟨none, []⟩
  else
    let ra := deleteLoop outcome now unused_manifests [] []
    ⟨some ra.1, ra.2⟩

theorem deleteLoop_attempts (outcome : String → String → DeleteOutcome)
    (now : Int) :
    ∀ (ms : List Manifest) (results : List (String × DeletionRecord))
      (attempts : List (String × String)),
      (deleteLoop outcome now ms results attempts).2
        = attempts ++ ms.map (fun m => (m.repository, m.digest)) := by
  intro ms
  induction ms with
  | nil => intro results attempts; simp [deleteLoop]
  | cons m rest ih =>
    intro results attempts
    simp [deleteLoop, ih]

theorem dictLookup_dictSet {α : Type} (m : List (String × α)) (k0 : String)
    (v : α) (k : String) :
    dictLookup (dictSet m k0 v) k
      = if k0 = k then some v else dictLookup m k := by
  induction m with
  | nil => simp [dictSet, dictLookup]
  | cons q rest ih =>
    obtain ⟨k1, v1⟩ := q
    by_cases h1 : k1 = k0
    · subst h1
      by_cases h2 : k1 = k
      · simp [dictSet, dictLookup, h2]
      · simp [dictSet, dictLookup, h2]
    · by_cases h2 : k1 = k
      · subst h2
        have : ¬ k0 = k1 := fun hc => h1 hc.symm
        simp [dictSet, dictLookup, h1, this]
      · simp [dictSet, dictLookup, h1, h2, ih]

theorem dictSet_mem {α : Type} (m : List (String × α)) (k : String) (v : α) :
    ∀ p ∈ dictSet m k v, p ∈ m ∨ p = (k, v) := by
  induction m with
  | nil =>
    intro p hp
    simp [dictSet] at hp
    exact Or.inr hp
  | cons q rest ih =>
    obtain ⟨k1, v1⟩ := q
    intro p hp
    by_cases h1 : k1 = k
    · subst h1
      simp only [dictSet, if_pos, List.mem_cons] at hp
      rcases hp with rfl | hp
      · exact Or.inr rfl
      · exact Or.inl (List.mem_cons_of_mem _ hp)
    · simp only [dictSet, h1, if_neg, not_false_iff, List.mem_cons] at hp
      rcases hp with rfl | hp
      · exact Or.inl (List.mem_cons_self _ _)
      · rcases ih p hp with h | h
        · exact Or.inl (List.mem_cons_of_mem _ h)
        · exact Or.inr h

theorem dictLookup_mem {α : Type} (m : List (String × α)) (k : String)
    (v : α) (h : dictLookup m k = some v) : (k, v) ∈ m := by
  induction m with
  | nil => simp [dictLookup] at h
  | cons q rest ih =>
    obtain ⟨k1, v1⟩ := q
    by_cases h1 : k1 = k
    · subst h1
      rw [dictLookup, if_pos rfl] at h
      injection h with hv
      subst hv
      exact List.mem_cons_self _ _
    · rw [dictLookup, if_neg h1] at h
      exact List.mem_cons_of_mem _ (ih h)

theorem deletionRecordOf_status (m : Manifest) (o : DeleteOutcome) (now : Int) :
    (deletionRecordOf m o now).status = "success" ∨
    (deletionRecordOf m o now).status = "failed" := by
  cases o with
  | ok => exact Or.inl rfl
  | cliError e => exact Or.inr rfl
  | timedOut => exact Or.inr rfl

theorem deleteLoop_ledger_valid (outcome : String → String → DeleteOutcome)
    (now : Int) :
    ∀ (ms : List Manifest) (results : List (String × DeletionRecord))
      (attempts : List (String × String)),
      (∀ p ∈ results, p.2.status = "success" ∨ p.2.status = "failed") →
      ∀ p ∈ (deleteLoop outcome now ms results attempts).1,
        p.2.status = "success" ∨ p.2.status = "failed" := by
  intro ms
  induction ms with
  | nil => intro results attempts hres p hp; exact hres p hp
  | cons m rest ih =>
    intro results attempts hres p hp
    simp only [deleteLoop] at hp
    refine ih _ _ ?_ p hp
    intro q hq
    rcases dictSet_mem results m.digest _ q hq with h | h
    · exact hres q h
    · rw [h]
      exact deletionRecordOf_status m _ now

theorem deleteLoop_preserves_keys (outcome : String → String → DeleteOutcome)
    (now : Int) :
    ∀ (ms : List Manifest) (results : List (String × DeletionRecord))
      (attempts : List (String × String)) (k : String),
      (dictLookup results k).isSome →
      (dictLookup (deleteLoop outcome now ms results attempts).1 k).isSome := by
  intro ms
  induction ms with
  | nil => intro results attempts k h; exact h
  | cons m rest ih =>
    intro results attempts k h
    simp only [deleteLoop]
    refine ih _ _ k ?_
    rw [dictLookup_dictSet]
    by_cases hk : m.digest = k
    · rw [if_pos hk]; rfl
    · rw [if_neg hk]; exact h

theorem deleteLoop_ledger_keys (outcome : String → String → DeleteOutcome)
    (now : Int) :
    ∀ (ms : List Manifest) (results : List (String × DeletionRecord))
      (attempts : List (String × String)),
      ∀ m ∈ ms,
        (dictLookup (deleteLoop outcome now ms results attempts).1
          m.digest).isSome := by
  intro ms
  induction ms with
  | nil => intro results attempts m hm; simp at hm
  | cons a rest ih =>
    intro results attempts m hm
    rcases List.mem_cons.mp hm with rfl | hm
    · simp only [deleteLoop]
      refine deleteLoop_preserves_keys outcome now rest _ _ m.digest ?_
      rw [dictLookup_dictSet, if_pos rfl]
      rfl
    · simp only [deleteLoop]
      exact ih _ _ m hm

/-- C8: per-deletion independence: with a non-empty candidate list and the
confirmation given, `hard_delete_manifests` issues one deletion command
per manifest — whatever the per-digest outcomes are, no failure or
timeout cancels the remaining attempts — and the returned ledger has an
entry of status `success` or `failed` for every attempted digest. -/
theorem hard_delete_per_deletion_independence (unused : List Manifest)
    (acr_name response : String) (outcome : String → String → DeleteOutcome)
    (now : Int) (hne : unused ≠ []) (hconf : pyStrip response = "DELETE") :
    (hard_delete_manifests unused acr_name response outcome now).attempts
      = unused.map (fun m => (m.repository, m.digest)) ∧
    ∃ ledger,
      (hard_delete_manifests unused acr_name response outcome
        now).deletion_results = some ledger ∧
      ∀ m ∈ unused, ∃ rec, dictLookup ledger m.digest = some rec ∧
        (rec.status = "success" ∨ rec.status = "failed") := by
  have hie : unused.isEmpty = false := by
    cases unused with
    | nil => exact absurd rfl hne
    | cons a rest => rfl
  have hrun : hard_delete_manifests unused acr_name response outcome now
      = ⟨some (deleteLoop outcome now unused [] []).1,
          (deleteLoop outcome now unused [] []).2⟩ := by
    simp [hard_delete_manifests, hie, hconf]
  constructor
  · rw [hrun]
    simpa using deleteLoop_attempts outcome now unused [] []
  · refine ⟨(deleteLoop outcome now unused [] []).1, by rw [hrun], ?_⟩
    intro m hm
    have hkey := deleteLoop_ledger_keys outcome now unused [] [] m hm
    cases hlk : dictLookup (deleteLoop outcome now unused [] []).1 m.digest with
    | none => rw [hlk] at hkey; exact absurd hkey (by simp)
    | some rec =>
      refine ⟨rec, rfl, ?_⟩
      have hmem := dictLookup_mem _ _ _ hlk
      have := deleteLoop_ledger_valid outcome now unused [] []
        (by intro p hp; simp at hp) (m.digest, rec) hmem
      exact this

/-- Witness for C8 at a concrete run: two manifests, the first deletion
fails with a CLI error, yet both deletions are attempted and both digests
have a ledger entry. -/
theorem hard_delete_per_deletion_independence_witness :
    (hard_delete_manifests [mA, mB] "myacr" "DELETE"
      (fun _ d => if d = "sha256:aa" then .cliError "denied" else .ok)
      0).attempts = [("svc", "sha256:aa"), ("svc", "sha256:bb")] ∧
    ∃ ledger,
      (hard_delete_manifests [mA, mB] "myacr" "DELETE"
        (fun _ d => if d = "sha256:aa" then .cliError "denied" else .ok)
        0).deletion_results = some ledger ∧
      ∀ m ∈ [mA, mB], ∃ rec, dictLookup ledger m.digest = some rec ∧
        (rec.status = "success" ∨ rec.status = "failed") := by
  have h := hard_delete_per_deletion_independence [mA, mB] "myacr" "DELETE"
    (fun _ d => if d = "sha256:aa" then .cliError "denied" else .ok) 0
    (by decide) (by decide)
  exact ⟨by rw [h.1]; decide, h.2⟩

/-- C9 counterexample: the raw confirmation input `" DELETE "` differs
from the exact string `DELETE`, yet (because the code strips whitespace
before comparing) the deletion proceeds: commands are issued and a ledger
is returned, refuting the claim as stated. -/
theorem hard_delete_confirmation_counterexample :
    (" DELETE " : String) ≠ "DELETE" ∧
    (hard_delete_manifests [mB] "myacr" " DELETE " (fun _ _ => .ok)
      0).attempts ≠ [] ∧
    (hard_delete_manifests [mB] "myacr" " DELETE " (fun _ _ => .ok)
      0).deletion_results ≠ none := by
  refine ⟨by decide, by decide, by decide⟩

/-- C9 (amended): with a non-empty candidate list, when the
whitespace-stripped confirmation input differs from the exact string
`DELETE`, `hard_delete_manifests` issues no deletion command and returns
`None`. -/
theorem hard_delete_refused_confirmation (unused : List Manifest)
    (acr_name response : String) (outcome : String → String → DeleteOutcome)
    (now : Int) (hne : unused ≠ []) (hconf : pyStrip response ≠ "DELETE") :
    hard_delete_manifests unused acr_name response outcome now
      = ⟨none, []⟩ := by
  have hie : unused.isEmpty = false := by
    cases unused with
    | nil => exact absurd rfl hne
    | cons a rest => rfl
  simp [hard_delete_manifests, hie, hconf]

/-- Witness for C9 (amended): confirmation `no` refuses the deletion. -/
theorem hard_delete_refused_confirmation_witness :
    hard_delete_manifests [mB] "myacr" "no" (fun _ _ => .ok) 0
      = ⟨none, []⟩ := by
  exact hard_delete_refused_confirmation [mB] "myacr" "no" (fun _ _ => .ok) 0
    (by decide) (by decide)
